import Mathlib

/-!
Verification of the docwise-ai retrieval-augmented answering pipeline
against its specification.  The frontend (React context, API client,
analytics page) is embedded from the JavaScript sources; the backend core
(chunker, vector index, retriever, answer generator) is not part of the
source tree, so those components are modelled from the specification text,
as flagged in each doc comment.
-/

namespace Docwise

/-! ## Chunker -/

/-- A chunk span inside one page's text: start offset and length, in
characters. -/
structure Span where
  start : Nat
  len : Nat
deriving Repr, DecidableEq

/-- Modelled from the spec: the chunker itself is not in the source tree.
Produces the spans of successive chunks.  `p` is the offset of the next
chunk, `R` the number of characters remaining from `p` to the end of the
text.  A chunk takes at most `C` characters; the next chunk starts
`C - O` characters later.  The fuel argument only bounds the recursion;
`R` units of fuel always suffice because each step consumes at least one
remaining character. -/
def chunkSpansGo (C O : Nat) : Nat → Nat → Nat → List Span
  | 0, _, _ => []
  | fuel+1, p, R =>
    if R ≤ C then [⟨p, R⟩]
    else ⟨p, C⟩ :: chunkSpansGo C O fuel (p + (C - O)) (R - (C - O))

/-- Modelled from the spec: `chunk` splits a text of length `L` into spans
with target length `C` and overlap `O`; an overlap not strictly below the
target length is a configuration error (`none`). -/
def chunk (C O L : Nat) : Option (List Span) :=
  if O < C then some (chunkSpansGo C O L 0 L) else none

/-- End offset of a span. -/
def spanEnd (s : Span) : Nat := s.start + s.len

/-- Number of characters two spans share (the length of the intersection of
the two character ranges). -/
def overlapLen (a b : Span) : Nat :=
  min (spanEnd a) (spanEnd b) - max a.start b.start

theorem chunkSpansGo_length (C O : Nat) (hCO : O < C) :
    ∀ fuel p R, O < R → R ≤ fuel →
      (chunkSpansGo C O fuel p R).length = (R - O - 1) / (C - O) + 1 := by
  intro fuel
  induction fuel with
  | zero => intro p R hR hfuel; omega
  | succ n ih =>
    intro p R hR hfuel
    rw [chunkSpansGo]
    split
    · rename_i hRC
      have h1 : R - O - 1 < C - O := by omega
      simp [Nat.div_eq_of_lt h1]
    · rename_i hRC
      push_neg at hRC
      have hR' : O < R - (C - O) := by omega
      have hf' : R - (C - O) ≤ n := by omega
      rw [List.length_cons, ih _ _ hR' hf']
      have harg : R - O - 1 = (R - (C - O) - O - 1) + (C - O) := by omega
      rw [harg, Nat.add_div_right _ (by omega : 0 < C - O)]

theorem chunkSpansGo_getElem (C O : Nat) (hCO : O < C) :
    ∀ fuel p R, 1 ≤ R → R ≤ fuel →
      ∀ i, i < (chunkSpansGo C O fuel p R).length →
        (chunkSpansGo C O fuel p R)[i]? =
          some ⟨p + i * (C - O), min C (R - i * (C - O))⟩ := by
  intro fuel
  induction fuel with
  | zero => intro p R hR hfuel; omega
  | succ n ih =>
    intro p R hR hfuel i h
    rw [chunkSpansGo] at h ⊢
    split at h
    · rename_i hRC
      rw [if_pos hRC]
      simp only [List.length_singleton] at h
      interval_cases i
      have : min C R = R := by omega
      simp [this]
    · rename_i hRC
      push_neg at hRC
      rw [if_neg (not_le.mpr hRC)]
      match i with
      | 0 =>
        have : min C R = C := by omega
        simp [this]
      | j + 1 =>
        have hR' : 1 ≤ R - (C - O) := by omega
        have hf' : R - (C - O) ≤ n := by omega
        have hj : j < (chunkSpansGo C O n (p + (C - O)) (R - (C - O))).length := by
          simpa using Nat.lt_of_succ_lt_succ h
        rw [List.getElem?_cons_succ, ih (p + (C - O)) (R - (C - O)) hR' hf' j hj]
        have e1 : p + (C - O) + j * (C - O) = p + (j + 1) * (C - O) := by
          rw [Nat.succ_mul]; omega
        have e2 : R - (C - O) - j * (C - O) = R - (j + 1) * (C - O) := by
          rw [Nat.succ_mul, Nat.sub_sub, Nat.add_comm]
        rw [e1, e2]

theorem chunk_getElem (C O L : Nat) (hCO : O < C) (hL : 1 ≤ L) (i : Nat)
    (h : i < (chunkSpansGo C O L 0 L).length) :
    (chunkSpansGo C O L 0 L)[i]? = some ⟨i * (C - O), min C (L - i * (C - O))⟩ := by
  have := chunkSpansGo_getElem C O hCO L 0 L hL (le_refl L) i h
  simpa using this

/-- C1 (amended): for overlap `O < C` and page length `L > O`, the chunker
produces exactly `ceil((L-O)/(C-O))` chunks; chunk `i+1` starts `C - O`
characters into chunk `i`'s span; consecutive chunks share exactly `O`
characters; no chunk has zero length; and for `C = 1000`, `O = 200`,
`L = 2300` the chunks start at offsets 0, 800, 1600 with lengths 1000,
1000, 700.  (For `1 ≤ L ≤ O` the chunker instead produces one single
chunk, which the unrestricted ceiling formula of the claim misses.) -/
theorem chunk_count_and_overlap (C O L : Nat) (hCO : O < C) (hOL : O < L) :
    ∃ cs, chunk C O L = some cs ∧
      cs.length = (L - O) ⌈/⌉ (C - O) ∧
      (∀ i a b, cs[i]? = some a → cs[i + 1]? = some b →
        b.start = a.start + (C - O) ∧ overlapLen a b = O) ∧
      (∀ s ∈ cs, 0 < s.len) ∧
      chunk 1000 200 2300 = some [⟨0, 1000⟩, ⟨800, 1000⟩, ⟨1600, 700⟩] := by
  have hL : 1 ≤ L := by omega
  refine ⟨chunkSpansGo C O L 0 L, if_pos hCO, ?_, ?_, ?_, by decide⟩
  · rw [chunkSpansGo_length C O hCO L 0 L hOL (le_refl L),
      Nat.ceilDiv_eq_add_pred_div]
    have e : L - O + (C - O) - 1 = (L - O - 1) + (C - O) := by omega
    rw [e, Nat.add_div_right _ (by omega : 0 < C - O)]
  · intro i a b ha hb
    have hib : i + 1 < (chunkSpansGo C O L 0 L).length := by
      by_contra hc
      rw [List.getElem?_eq_none (le_of_not_lt hc)] at hb
      exact Option.noConfusion hb
    have hia : i < (chunkSpansGo C O L 0 L).length := by omega
    rw [chunk_getElem C O L hCO hL i hia] at ha
    rw [chunk_getElem C O L hCO hL (i + 1) hib] at hb
    have ha' := Option.some.inj ha
    have hb' := Option.some.inj hb
    subst ha' hb'
    have hcount := chunkSpansGo_length C O hCO L 0 L hOL (le_refl L)
    rw [hcount] at hib
    have hdiv : (i + 1) * (C - O) ≤ ((L - O - 1) / (C - O)) * (C - O) :=
      Nat.mul_le_mul_right _ (by omega)
    have hdm : ((L - O - 1) / (C - O)) * (C - O) ≤ L - O - 1 :=
      Nat.div_mul_le_self _ _
    have hsm : i * (C - O) + (C - O) = (i + 1) * (C - O) := by
      rw [Nat.succ_mul]
    simp only [Span.mk.injEq, overlapLen, spanEnd]
    constructor
    · omega
    · omega
  · intro s hs
    obtain ⟨i, hi, hget⟩ := List.mem_iff_getElem.mp hs
    have hsome : (chunkSpansGo C O L 0 L)[i]? = some s := by
      rw [List.getElem?_eq_getElem hi, hget]
    rw [chunk_getElem C O L hCO hL i hi] at hsome
    have hs' := Option.some.inj hsome
    subst hs'
    have hcount := chunkSpansGo_length C O hCO L 0 L hOL (le_refl L)
    rw [hcount] at hi
    have hdiv : i * (C - O) ≤ ((L - O - 1) / (C - O)) * (C - O) :=
      Nat.mul_le_mul_right _ (by omega)
    have hdm : ((L - O - 1) / (C - O)) * (C - O) ≤ L - O - 1 :=
      Nat.div_mul_le_self _ _
    simp only
    omega

/-- C1 counterexample: at `C = 1000`, `O = 200`, `L = 100` (a page text
shorter than the overlap) the chunker emits one chunk, while the claimed
count formula `ceil((L-O)/(C-O))` evaluates to 0. -/
theorem chunk_count_formula_cex :
    (chunk 1000 200 100).map List.length = some 1 ∧
    ⌈((100 : ℚ) - 200) / ((1000 : ℚ) - 200)⌉ = 0 ∧
    (chunk 1000 200 100).map List.length ≠
      some (⌈((100 : ℚ) - 200) / ((1000 : ℚ) - 200)⌉.toNat) := by
  have hceil : ⌈((100 : ℚ) - 200) / ((1000 : ℚ) - 200)⌉ = 0 := by
    rw [Int.ceil_eq_zero_iff]
    constructor
    · norm_num
    · norm_num
  refine ⟨by decide, hceil, ?_⟩
  rw [hceil]
  decide

/-- Witness for the amended C1 theorem at the spec's own scenario. -/
theorem chunk_count_and_overlap_witness :
    ∃ cs, chunk 1000 200 2300 = some cs ∧
      cs.length = (2300 - 200) ⌈/⌉ (1000 - 200) ∧
      (∀ i a b, cs[i]? = some a → cs[i + 1]? = some b →
        b.start = a.start + (1000 - 200) ∧ overlapLen a b = 200) ∧
      (∀ s ∈ cs, 0 < s.len) ∧
      chunk 1000 200 2300 = some [⟨0, 1000⟩, ⟨800, 1000⟩, ⟨1600, 700⟩] :=
  chunk_count_and_overlap 1000 200 2300 (by decide) (by decide)

/-! ## Vector index -/

/-- Modelled from the spec: a Vector Entry — chunk id (owning document id
plus ordinal), page number, embedding vector and chunk text snapshot. -/
structure VEntry where
  docId : String
  page : Nat
  ordinal : Nat
  vec : List ℚ
  text : String
deriving DecidableEq

/-- Modelled from the spec: the Vector Index stores entries in insertion
order (insertion order is the search tie-break). -/
structure Index where
  entries : List VEntry
deriving DecidableEq

/-- The empty index, holding zero entries. -/
def emptyIndex : Index := ⟨[]⟩

/-- A Retrieval Result: an entry together with its similarity score for the
current query. -/
structure RetrievalResult where
  entry : VEntry
  score : ℚ
deriving DecidableEq

/-- Modelled from the spec: stable insertion into a descending-by-score
list.  An incoming element is placed after every element of score greater
than or equal to its own, so earlier-inserted entries win score ties. -/
def insertDesc (x : RetrievalResult) : List RetrievalResult → List RetrievalResult
  | [] => [x]
  | y :: ys => if y.score < x.score then x :: y :: ys else y :: insertDesc x ys

/-- Stable sort by descending score (insertion order preserved on ties). -/
def sortDesc (l : List RetrievalResult) : List RetrievalResult :=
  l.foldl (fun acc x => insertDesc x acc) []

/-- Score one entry against the (already embedded) query vector, given a
similarity function.  Cosine similarity needs square roots, so the model
keeps the similarity function abstract; every property proved below holds
for an arbitrary similarity function. -/
def score (sim : List ℚ → List ℚ → ℚ) (q : List ℚ) (e : VEntry) : RetrievalResult :=
  ⟨e, sim q e.vec⟩

/-- Modelled from the spec: the full descending ranking of the index for a
query. -/
def searchAll (sim : List ℚ → List ℚ → ℚ) (q : List ℚ) (idx : Index) :
    List RetrievalResult :=
  sortDesc (idx.entries.map (score sim q))

/-- Modelled from the spec: `search(query_vector, k)` returns up to `k`
results ordered by descending similarity, ties broken by insertion order. -/
def search (sim : List ℚ → List ℚ → ℚ) (idx : Index) (q : List ℚ) (k : Nat) :
    List RetrievalResult :=
  (searchAll sim q idx).take k

/-- Modelled from the spec: `delete(document_id)` removes every entry owned
by that document. -/
def deleteDoc (idx : Index) (d : String) : Index :=
  ⟨idx.entries.filter (fun e => e.docId ≠ d)⟩

/-- Modelled from the spec: the persisted snapshot is keyed by document id
and keeps the entries in insertion order. -/
def persist (idx : Index) : List (String × VEntry) :=
  idx.entries.map (fun e => (e.docId, e))

/-- Modelled from the spec: `restore()` rebuilds a fresh index from a
persisted snapshot. -/
def restore (snap : List (String × VEntry)) : Index :=
  ⟨snap.map Prod.snd⟩

theorem mem_insertDesc (x a : RetrievalResult) :
    ∀ l, a ∈ insertDesc x l ↔ a = x ∨ a ∈ l := by
  intro l
  induction l with
  | nil => simp [insertDesc]
  | cons y ys ih =>
    rw [insertDesc]
    split
    · simp
    · simp only [List.mem_cons, ih]
      tauto

theorem mem_sortDesc (a : RetrievalResult) (l : List RetrievalResult) :
    a ∈ sortDesc l ↔ a ∈ l := by
  suffices h : ∀ l acc : List RetrievalResult,
      a ∈ List.foldl (fun acc x => insertDesc x acc) acc l ↔
      a ∈ l ∨ a ∈ acc by
    have := h l []
    simpa [sortDesc] using this
  intro l
  induction l with
  | nil => simp
  | cons y ys ih =>
    intro acc
    rw [List.foldl_cons, ih, mem_insertDesc, List.mem_cons]
    tauto

/-- The descending-score ordering maintained by `sortDesc`. -/
def DescSorted (l : List RetrievalResult) : Prop :=
  l.Pairwise (fun a b => b.score ≤ a.score)

theorem insertDesc_of_forall_lt (x : RetrievalResult) (l : List RetrievalResult)
    (h : ∀ y ∈ l, y.score < x.score) : insertDesc x l = x :: l := by
  cases l with
  | nil => rfl
  | cons y ys => rw [insertDesc, if_pos (h y (List.mem_cons_self y ys))]

theorem insertDesc_descSorted (x : RetrievalResult) (l : List RetrievalResult)
    (hl : DescSorted l) : DescSorted (insertDesc x l) := by
  induction l with
  | nil => simp [insertDesc, DescSorted]
  | cons y ys ih =>
    rw [DescSorted, List.pairwise_cons] at hl
    rw [insertDesc]
    split
    · rename_i hlt
      rw [DescSorted, List.pairwise_cons]
      refine ⟨?_, List.Pairwise.cons hl.1 hl.2⟩
      intro z hz
      rcases List.mem_cons.mp hz with rfl | hz'
      · exact le_of_lt hlt
      · exact le_trans (hl.1 z hz') (le_of_lt hlt)
    · rename_i hge
      push_neg at hge
      rw [DescSorted, List.pairwise_cons]
      refine ⟨?_, ih hl.2⟩
      intro z hz
      rcases (mem_insertDesc x z ys).mp hz with rfl | hz'
      · exact hge
      · exact hl.1 z hz'

theorem sortDesc_descSorted (l : List RetrievalResult) : DescSorted (sortDesc l) := by
  suffices h : ∀ l acc : List RetrievalResult, DescSorted acc →
      DescSorted (List.foldl (fun acc x => insertDesc x acc) acc l) by
    exact h l [] (by simp [DescSorted])
  intro l
  induction l with
  | nil => intro acc hacc; simpa using hacc
  | cons y ys ih =>
    intro acc hacc
    rw [List.foldl_cons]
    exact ih _ (insertDesc_descSorted y acc hacc)

theorem filter_insertDesc (p : RetrievalResult → Bool) (x : RetrievalResult)
    (l : List RetrievalResult) (hl : DescSorted l) :
    (insertDesc x l).filter p =
      if p x then insertDesc x (l.filter p) else l.filter p := by
  induction l with
  | nil => cases hx : p x <;> simp [insertDesc, List.filter, hx]
  | cons y ys ih =>
    rw [DescSorted, List.pairwise_cons] at hl
    rw [insertDesc]
    split
    · rename_i hlt
      have hall : ∀ z ∈ (y :: ys).filter p, z.score < x.score := by
        intro z hz
        have hz' := List.mem_of_mem_filter hz
        rcases List.mem_cons.mp hz' with rfl | hz''
        · exact hlt
        · exact lt_of_le_of_lt (hl.1 z hz'') hlt
      by_cases hx : p x = true
      · rw [if_pos hx, insertDesc_of_forall_lt x _ hall,
          List.filter_cons_of_pos hx]
      · rw [if_neg hx, List.filter_cons_of_neg hx]
    · rename_i hge
      push_neg at hge
      cases hy : p y
      · rw [List.filter_cons_of_neg (by simp [hy]),
          List.filter_cons_of_neg (by simp [hy]), ih hl.2]
      · rw [List.filter_cons_of_pos hy, List.filter_cons_of_pos hy, ih hl.2]
        cases hx : p x
        · simp
        · rw [if_pos rfl, if_pos rfl, insertDesc,
            if_neg (not_lt.mpr hge)]

theorem filter_sortDesc (p : RetrievalResult → Bool) (l : List RetrievalResult) :
    (sortDesc l).filter p = sortDesc (l.filter p) := by
  suffices h : ∀ l acc : List RetrievalResult, DescSorted acc →
      (List.foldl (fun acc x => insertDesc x acc) acc l).filter p =
        List.foldl (fun acc x => insertDesc x acc) (acc.filter p) (l.filter p) by
    exact h l [] (by simp [DescSorted])
  intro l
  induction l with
  | nil => intro acc hacc; rfl
  | cons y ys ih =>
    intro acc hacc
    rw [List.foldl_cons, ih _ (insertDesc_descSorted y acc hacc),
      filter_insertDesc p y acc hacc]
    cases hy : p y
    · rw [List.filter_cons_of_neg (by simp [hy]), if_neg (by simp [hy])]
    · rw [List.filter_cons_of_pos hy, if_pos rfl, List.foldl_cons]

/-- C5: after `delete(document_id)` no search, for any query vector and
any `k`, returns a chunk owned by that document; and deleting an id that
owns no entry leaves the index unchanged (deletion of an unknown id is a
no-op, not an error). -/
theorem delete_spec (sim : List ℚ → List ℚ → ℚ) (idx : Index) (d : String)
    (q : List ℚ) (k : Nat) :
    (∀ r ∈ search sim (deleteDoc idx d) q k, r.entry.docId ≠ d)
    ∧ ((∀ e ∈ idx.entries, e.docId ≠ d) → deleteDoc idx d = idx) := by
  constructor
  · intro r hr
    have h1 : r ∈ searchAll sim q (deleteDoc idx d) :=
      List.take_subset k _ hr
    rw [searchAll, mem_sortDesc] at h1
    obtain ⟨e, he, hre⟩ := List.mem_map.mp h1
    have he' := List.mem_filter.mp he
    have : e.docId ≠ d := of_decide_eq_true he'.2
    rw [← hre]
    exact this
  · intro hfree
    have : idx.entries.filter (fun e => e.docId ≠ d) = idx.entries :=
      List.filter_eq_self.mpr fun e he => decide_eq_true (hfree e he)
    rw [deleteDoc, this]

/-- Witness for C5: deleting an id owned by no entry is a no-op on a
concrete one-entry index. -/
theorem delete_spec_witness :
    deleteDoc ⟨[⟨"docA", 1, 0, [1], "alpha"⟩]⟩ "docB" =
      ⟨[⟨"docA", 1, 0, [1], "alpha"⟩]⟩ :=
  (delete_spec (fun _ _ => 0) ⟨[⟨"docA", 1, 0, [1], "alpha"⟩]⟩ "docB" [] 5).2
    (by decide)

/-- C6: persisting and then restoring into a fresh index reproduces the
exact same search output — membership, ordering and scores — for every
query vector and every `k`. -/
theorem persist_restore_search (sim : List ℚ → List ℚ → ℚ) (idx : Index)
    (q : List ℚ) (k : Nat) :
    search sim (restore (persist idx)) q k = search sim idx q k := by
  have h : restore (persist idx) = idx := by
    rw [restore, persist, List.map_map]
    congr 1
    induction idx.entries with
    | nil => rfl
    | cons e t ih => simpa using ih
  rw [h]

/-! ## Retriever -/

/-- Modelled from the spec: confidence is the top (maximum) normalized
similarity of the retrieved results, and 0 when there are none. -/
def confidence (scores : List ℚ) : ℚ := scores.foldr max 0

/-- Modelled from the spec: the allowed-document filter; `none` or an empty
supplied list leaves results unrestricted. -/
def allowedFilter (allowed : Option (List String)) (r : RetrievalResult) : Bool :=
  match allowed with
  | none => true
  | some ds => if ds.isEmpty then true else ds.contains r.entry.docId

/-- Modelled from the spec: `retrieve` ranks the whole index for the query,
filters the ranking post-hoc by the allowed document ids and by the
minimum-similarity threshold `τ`, keeps the top `k`, and reports the
confidence of the kept scores. -/
def retrieve (sim : List ℚ → List ℚ → ℚ) (τ : ℚ) (idx : Index) (q : List ℚ)
    (k : Nat) (allowed : Option (List String)) : List RetrievalResult × ℚ :=
  let kept := ((searchAll sim q idx).filter
      (fun r => allowedFilter allowed r && decide (τ ≤ r.score))).take k
  (kept, confidence (kept.map (fun r => r.score)))

theorem confidence_nonneg (scores : List ℚ) : 0 ≤ confidence scores := by
  induction scores with
  | nil => exact le_refl 0
  | cons x t ih => exact le_trans ih (le_max_right x _)

theorem le_confidence_of_mem {x : ℚ} {scores : List ℚ} (h : x ∈ scores) :
    x ≤ confidence scores := by
  induction scores with
  | nil => exact absurd h (List.not_mem_nil x)
  | cons y t ih =>
    rcases List.mem_cons.mp h with rfl | h'
    · exact le_max_left x _
    · exact le_trans (ih h') (le_max_right y _)

theorem confidence_le_one {scores : List ℚ} (h : ∀ x ∈ scores, x ≤ 1) :
    confidence scores ≤ 1 := by
  induction scores with
  | nil => norm_num [confidence]
  | cons y t ih =>
    rw [confidence, List.foldr_cons]
    exact max_le (h y (List.mem_cons_self y t))
      (ih fun x hx => h x (List.mem_cons_of_mem y hx))

theorem confidence_set_mono (pre post : List ℚ) {x y : ℚ} (hxy : x ≤ y) :
    confidence (pre ++ x :: post) ≤ confidence (pre ++ y :: post) := by
  induction pre with
  | nil =>
    rw [List.nil_append, List.nil_append, confidence, confidence,
      List.foldr_cons, List.foldr_cons]
    exact max_le_max hxy (le_refl _)
  | cons z t ih =>
    rw [List.cons_append, List.cons_append, confidence, confidence,
      List.foldr_cons, List.foldr_cons]
    exact max_le_max (le_refl z) ih

/-- C4: the retriever's confidence lies in `[0,1]` for normalized scores,
is 0 on an empty result set, is 0 exactly when retrieval (with a positive
minimum-similarity threshold) returns no results, and is monotone
non-decreasing in each input similarity score. -/
theorem retriever_confidence (sim : List ℚ → List ℚ → ℚ) (τ : ℚ) (idx : Index)
    (q : List ℚ) (k : Nat) (allowed : Option (List String))
    (scores pre post : List ℚ) (x y : ℚ)
    (hτ : 0 < τ) (hnorm : ∀ z ∈ scores, z ≤ 1) (hxy : x ≤ y) :
    (0 ≤ confidence scores ∧ confidence scores ≤ 1)
    ∧ confidence [] = 0
    ∧ ((retrieve sim τ idx q k allowed).2 = 0 ↔
        (retrieve sim τ idx q k allowed).1 = [])
    ∧ confidence (pre ++ x :: post) ≤ confidence (pre ++ y :: post) := by
  refine ⟨⟨confidence_nonneg scores, confidence_le_one hnorm⟩, rfl, ?_,
    confidence_set_mono pre post hxy⟩
  constructor
  · intro h0
    rcases hk : (retrieve sim τ idx q k allowed).1 with _ | ⟨r, t⟩
    · rfl
    · exfalso
      have hmem : r ∈ (retrieve sim τ idx q k allowed).1 := by
        rw [hk]; exact List.mem_cons_self r t
      have hfil : r ∈ (searchAll sim q idx).filter
          (fun r => allowedFilter allowed r && decide (τ ≤ r.score)) :=
        List.take_subset k _ hmem
      have hτr : τ ≤ r.score :=
        of_decide_eq_true (Bool.and_elim_right (List.mem_filter.mp hfil).2)
      have hscore : r.score ∈ (retrieve sim τ idx q k allowed).1.map
          (fun r => r.score) := List.mem_map_of_mem _ hmem
      have hle : r.score ≤ (retrieve sim τ idx q k allowed).2 :=
        le_confidence_of_mem hscore
      rw [h0] at hle
      linarith
  · intro h1
    have : (retrieve sim τ idx q k allowed).2 =
        confidence ((retrieve sim τ idx q k allowed).1.map (fun r => r.score)) :=
      rfl
    rw [this, h1]
    rfl

/-- Witness for C4 on a concrete one-entry index and threshold 1/2. -/
theorem retriever_confidence_witness :
    (0 ≤ confidence [(3 : ℚ)/4] ∧ confidence [(3 : ℚ)/4] ≤ 1)
    ∧ confidence [] = 0
    ∧ ((retrieve (fun _ _ => (3 : ℚ)/4) ((1 : ℚ)/2)
          ⟨[⟨"docA", 1, 0, [1], "alpha"⟩]⟩ [1] 5 none).2 = 0 ↔
        (retrieve (fun _ _ => (3 : ℚ)/4) ((1 : ℚ)/2)
          ⟨[⟨"docA", 1, 0, [1], "alpha"⟩]⟩ [1] 5 none).1 = [])
    ∧ confidence ([] ++ (1 : ℚ)/4 :: []) ≤ confidence ([] ++ (1 : ℚ)/2 :: []) :=
  retriever_confidence (fun _ _ => (3 : ℚ)/4) ((1 : ℚ)/2)
    ⟨[⟨"docA", 1, 0, [1], "alpha"⟩]⟩ [1] 5 none [(3 : ℚ)/4] [] []
    ((1 : ℚ)/4) ((1 : ℚ)/2) (by norm_num)
    (by intro z hz; rcases List.mem_cons.mp hz with rfl | h
        · norm_num
        · exact absurd h (List.not_mem_nil z))
    (by norm_num)

/-! ## Answer generator -/

/-- A cited source: owning document id, page number and a text snippet. -/
structure Citation where
  docId : String
  page : Nat
  snippet : String
deriving DecidableEq

/-- An Answer: generated text, ordered citations, confidence in `[0,1]`,
optional error flag. -/
structure Answer where
  text : String
  citations : List Citation
  confidence : ℚ
  isError : Bool
deriving DecidableEq

/-- Modelled from the spec: the fixed fallback Answer returned when
retrieval yields no grounding. -/
def fallbackAnswer : Answer :=
  ⟨"I do not have enough information in the provided documents to answer this question.",
    [], 0, false⟩

/-- Modelled from the spec: `generate` returns the fixed fallback on an
empty result set without invoking the completion capability; otherwise it
assembles a context block from the results in ranked order, invokes the
completion capability once, and cites every chunk supplied in the
context. -/
def generate (complete : String → String) (queryText : String)
    (results : List RetrievalResult) (conf : ℚ) : Answer :=
  if results.isEmpty then fallbackAnswer
  else
    let context := String.intercalate "\n\n" (results.map (fun r => r.entry.text))
    let prompt := "Answer only from the context and decline if it is insufficient.\nContext:\n"
      ++ context ++ "\nQuestion: " ++ queryText
    ⟨complete prompt,
      results.map (fun r => ⟨r.entry.docId, r.entry.page, r.entry.text⟩),
      conf, false⟩

/-- Modelled from the spec: `ask` embeds and retrieves, then generates. -/
def ask (sim : List ℚ → List ℚ → ℚ) (τ : ℚ) (complete : String → String)
    (idx : Index) (qVec : List ℚ) (queryText : String) (k : Nat)
    (allowed : Option (List String)) : Answer :=
  let res := retrieve sim τ idx qVec k allowed
  generate complete queryText res.1 res.2

/-- C2: an empty retrieval result set always produces the fixed fallback
Answer — "not enough information" text, no citations, confidence 0 — for
every completion capability (so the completion capability cannot influence
the result, i.e. it is not invoked); in particular `ask` against the empty
index returns exactly that fallback. -/
theorem empty_results_fallback (c c' : String → String) (queryText : String)
    (conf : ℚ) (sim : List ℚ → List ℚ → ℚ) (τ : ℚ) (qVec : List ℚ) (k : Nat)
    (allowed : Option (List String)) :
    generate c queryText [] conf = fallbackAnswer
    ∧ generate c queryText [] conf = generate c' queryText [] conf
    ∧ fallbackAnswer.citations = []
    ∧ fallbackAnswer.confidence = 0
    ∧ ask sim τ c emptyIndex qVec queryText k allowed = fallbackAnswer :=
  ⟨rfl, rfl, rfl, rfl, by simp [ask, retrieve, searchAll, sortDesc, emptyIndex, generate]⟩

/-! ## Frontend: API client and chat context -/

/-- From src/frontend/src/services/api.js: the JSON body posted by
`chatService.sendMessage` is `{ query, document_ids: documentIds }`. -/
structure ChatRequest where
  query : String
  document_ids : List String
deriving DecidableEq

/-- From src/frontend/src/services/api.js, `chatService.sendMessage`. -/
def chatRequestBody (query : String) (documentIds : List String) : ChatRequest :=
  ⟨query, documentIds⟩

/-- A chat message as stored by ChatContext.js.  Fields a given message
kind does not set in the JavaScript object carry their default value. -/
structure Message where
  id : String
  text : String
  isUser : Bool
  timestamp : String
  sessionId : Option String
  sources : List Citation
  confidence : Option ℚ
  isError : Bool
deriving DecidableEq

/-- The ChatProvider's React state: the stored message list, the loading
flag and the current session id. -/
structure ChatState where
  messages : List Message
  loading : Bool
  sessionId : Option String
deriving DecidableEq

/-- The successful payload of the chat endpoint, as destructured in
ChatContext.js: `{ response, sources, confidence }`. -/
structure ChatResponse where
  response : String
  sources : List Citation
  confidence : ℚ
deriving DecidableEq

/-- What `sendMessage` hands back to its caller: nothing (guard hit), the
AI message (resolved), or the re-thrown error (rejected). -/
inductive SendResult
  | skipped
  | answered (m : Message)
  | failed (errMsg : String)
deriving DecidableEq

/-- The effect of one `sendMessage` call: the next state, the returned or
thrown value, and the HTTP requests issued. -/
structure SendOutcome where
  state : ChatState
  result : SendResult
  requests : List ChatRequest
deriving DecidableEq

/-- From ChatContext.js: JavaScript `String.prototype.trim`, used in the
guard `!inputValue.trim()`. -/
def jsTrim (s : String) : String :=
  ⟨((s.data.dropWhile Char.isWhitespace).reverse.dropWhile
      Char.isWhitespace).reverse⟩

/-- From ChatContext.js lines 52-58: the appended user message. -/
def mkUserMessage (uid now : String) (sid : Option String)
    (inputValue : String) : Message :=
  ⟨uid, inputValue, true, now, sid, [], none, false⟩

/-- From ChatContext.js lines 67-75: the appended AI message. -/
def mkAiMessage (aid now : String) (sid : Option String)
    (resp : ChatResponse) : Message :=
  ⟨aid, resp.response, false, now, sid, resp.sources, some resp.confidence, false⟩

/-- From ChatContext.js lines 80-87: the appended error message. -/
def mkErrorMessage (aid now : String) (sid : Option String)
    (errMsg : String) : Message :=
  ⟨aid, "Sorry, I encountered an error: " ++ errMsg, false, now, sid, [],
    none, true⟩

/-- From ChatContext.js lines 49-93, `sendMessage`.  The chat service is a
parameter (`svc`), as are the generated message ids and timestamp; the
`finally` clause resets `loading` to false on both exits of the `try`. -/
def sendMessage (svc : ChatRequest → Except String ChatResponse)
    (uid aid now : String) (st : ChatState) (inputValue : String)
    (selectedDocuments : List String) : SendOutcome :=
  if jsTrim inputValue = "" ∨ st.loading then ⟨st, .skipped, []⟩
  else
    let userMessage := mkUserMessage uid now st.sessionId inputValue
    let req := chatRequestBody inputValue selectedDocuments
    match svc req with
    | .ok resp =>
      let aiMessage := mkAiMessage aid now st.sessionId resp
      ⟨⟨st.messages ++ [userMessage] ++ [aiMessage], false, st.sessionId⟩,
        .answered aiMessage, [req]⟩
    | .error e =>
      ⟨⟨st.messages ++ [userMessage] ++ [mkErrorMessage aid now st.sessionId e],
          false, st.sessionId⟩,
        .failed e, [req]⟩

/-- The value object ChatContext.js exposes to consumers (lines 144-156),
restricted to the state-derived fields. -/
structure ProviderValue where
  messages : List Message
  allMessages : List Message
  loading : Bool
  sessionId : Option String
deriving DecidableEq

/-- From ChatContext.js lines 144-148: `messages` is the stored list
filtered to the current session; `allMessages` is the full stored list. -/
def providerValue (st : ChatState) : ProviderValue :=
  ⟨st.messages.filter (fun m => m.sessionId == st.sessionId),
    st.messages, st.loading, st.sessionId⟩

/-- From ChatContext.js lines 132-135: `switchToSession` only replaces the
current session id. -/
def switchToSession (st : ChatState) (sid : String) : ChatState :=
  ⟨st.messages, st.loading, some sid⟩

/-- C3: when the chat-service call rejects, `sendMessage` still produces a
structured outcome: the stored messages are preserved as a prefix, exactly
one user message and one non-user message are appended, the appended
non-user message is flagged `isError` and its text carries the error
message, and `loading` is reset to false. -/
theorem sendMessage_failure (svc : ChatRequest → Except String ChatResponse)
    (uid aid now : String) (st : ChatState) (inputValue : String)
    (selectedDocuments : List String) (e : String)
    (htrim : jsTrim inputValue ≠ "") (hload : st.loading = false)
    (hsvc : svc (chatRequestBody inputValue selectedDocuments) = .error e) :
    (sendMessage svc uid aid now st inputValue selectedDocuments).state.messages
      = st.messages ++ [mkUserMessage uid now st.sessionId inputValue,
          mkErrorMessage aid now st.sessionId e]
    ∧ (mkUserMessage uid now st.sessionId inputValue).isUser = true
    ∧ (mkErrorMessage aid now st.sessionId e).isUser = false
    ∧ (mkErrorMessage aid now st.sessionId e).isError = true
    ∧ (mkErrorMessage aid now st.sessionId e).text
        = "Sorry, I encountered an error: " ++ e
    ∧ (sendMessage svc uid aid now st inputValue selectedDocuments).state.loading
        = false
    ∧ (sendMessage svc uid aid now st inputValue selectedDocuments).result
        = .failed e := by
  have hguard : ¬(jsTrim inputValue = "" ∨ st.loading = true) := by
    rw [hload]; simp [htrim]
  rw [sendMessage, if_neg (by simpa using hguard)]
  simp only [hsvc]
  simp [mkUserMessage, mkErrorMessage]

/-- Witness for C3 at a concrete failing service. -/
theorem sendMessage_failure_witness :
    (sendMessage (fun _ => .error "boom") "u1" "a1" "t0" ⟨[], false, none⟩
        "hi" []).state.messages
      = [] ++ [mkUserMessage "u1" "t0" none "hi",
          mkErrorMessage "a1" "t0" none "boom"]
    ∧ (mkUserMessage "u1" "t0" none "hi").isUser = true
    ∧ (mkErrorMessage "a1" "t0" none "boom").isUser = false
    ∧ (mkErrorMessage "a1" "t0" none "boom").isError = true
    ∧ (mkErrorMessage "a1" "t0" none "boom").text
        = "Sorry, I encountered an error: " ++ "boom"
    ∧ (sendMessage (fun _ => .error "boom") "u1" "a1" "t0" ⟨[], false, none⟩
        "hi" []).state.loading = false
    ∧ (sendMessage (fun _ => .error "boom") "u1" "a1" "t0" ⟨[], false, none⟩
        "hi" []).result = .failed "boom" :=
  sendMessage_failure (fun _ => .error "boom") "u1" "a1" "t0" ⟨[], false, none⟩
    "hi" [] "boom" (by decide) rfl rfl

/-- C8: the exposed `messages` value is exactly the stored messages of the
current session, in stored order (a sublist of the stored list); the
exposed `allMessages` is the full stored list; and `switchToSession` only
changes the current session id — it removes no stored message and leaves
the loading flag alone. -/
theorem providerValue_spec (st : ChatState) (sid : String) :
    (providerValue st).messages
      = st.messages.filter (fun m => m.sessionId == st.sessionId)
    ∧ (providerValue st).messages.Sublist st.messages
    ∧ (∀ m, m ∈ (providerValue st).messages ↔
        m ∈ st.messages ∧ m.sessionId = st.sessionId)
    ∧ (providerValue st).allMessages = st.messages
    ∧ (switchToSession st sid).messages = st.messages
    ∧ (switchToSession st sid).loading = st.loading
    ∧ (switchToSession st sid).sessionId = some sid := by
  refine ⟨rfl, List.filter_sublist _, ?_, rfl, rfl, rfl, rfl⟩
  intro m
  rw [providerValue]
  simp only [List.mem_filter, beq_iff_eq]

/-- C9: a blank (or whitespace-only) input, or a call made while a request
is already in flight, is a no-op — state unchanged, nothing appended, no
HTTP request issued, nothing returned. -/
theorem sendMessage_noop (svc : ChatRequest → Except String ChatResponse)
    (uid aid now : String) (st : ChatState) (inputValue : String)
    (selectedDocuments : List String)
    (h : jsTrim inputValue = "" ∨ st.loading = true) :
    sendMessage svc uid aid now st inputValue selectedDocuments
      = ⟨st, .skipped, []⟩ := by
  rw [sendMessage, if_pos (by simpa using h)]

/-- Witness for C9: whitespace-only input is a no-op. -/
theorem sendMessage_noop_witness :
    sendMessage (fun _ => .error "boom") "u1" "a1" "t0"
        ⟨[], false, none⟩ "   " ["doc1"]
      = ⟨⟨[], false, none⟩, .skipped, []⟩ :=
  sendMessage_noop (fun _ => .error "boom") "u1" "a1" "t0"
    ⟨[], false, none⟩ "   " ["doc1"] (Or.inl (by decide))

/-! ## Frontend: local analytics -/

/-- From Analytics.js lines 166-172: the bucket a confidence value `c`
falls into after scaling to a percentage — 0 for 90-100%, 1 for 70-89%,
2 for 50-69%, 3 for 30-49%, 4 otherwise.  Boundary values take the first
matching branch, i.e. the higher bucket. -/
def confBucket (c : ℚ) : Nat :=
  if 90 ≤ c * 100 then 0
  else if 70 ≤ c * 100 then 1
  else if 50 ≤ c * 100 then 2
  else if 30 ≤ c * 100 then 3
  else 4

/-- From Analytics.js line 166: the confidence values that get counted —
those of non-user messages whose confidence is defined. -/
def confMessages (msgs : List Message) : List ℚ :=
  msgs.filterMap (fun m => if m.isUser then none else m.confidence)

/-- The five bucket counts over a list of confidence values. -/
def bucketCounts (l : List ℚ) : List Nat :=
  [l.countP (fun c => confBucket c == 0),
   l.countP (fun c => confBucket c == 1),
   l.countP (fun c => confBucket c == 2),
   l.countP (fun c => confBucket c == 3),
   l.countP (fun c => confBucket c == 4)]

/-- From Analytics.js lines 157-173: the confidence distribution the page
computes over the stored messages. -/
def confidenceDistribution (msgs : List Message) : List Nat :=
  bucketCounts (confMessages msgs)

theorem confBucket_lt_five (c : ℚ) : confBucket c < 5 := by
  rw [confBucket]
  split_ifs <;> norm_num

theorem bucketCounts_sum (l : List ℚ) : (bucketCounts l).sum = l.length := by
  induction l with
  | nil => rfl
  | cons x t ih =>
    have h5 : confBucket x = 0 ∨ confBucket x = 1 ∨ confBucket x = 2 ∨
        confBucket x = 3 ∨ confBucket x = 4 := by
      have := confBucket_lt_five x
      omega
    simp only [bucketCounts, List.sum_cons, List.sum_nil, List.length_cons,
      List.countP_cons] at ih ⊢
    rcases h5 with h | h | h | h | h <;> rw [h] <;> norm_num <;> omega

theorem confMessages_length (msgs : List Message) :
    (confMessages msgs).length
      = (msgs.filter (fun m => !m.isUser && m.confidence.isSome)).length := by
  induction msgs with
  | nil => rfl
  | cons m t ih =>
    cases hm : m.isUser <;> cases hc : m.confidence <;>
      simp [confMessages, List.filterMap_cons, List.filter_cons, hm, hc] <;>
      simpa [confMessages] using ih

/-- C10: every non-user message with a defined confidence is counted in
exactly one of the five buckets, so the bucket counts sum to the number of
such messages; and the boundary values fall into the higher bucket —
confidence 0.9 lands in the 90-100% bucket and 0.7 in the 70-89% one. -/
theorem analytics_confidence_buckets (msgs : List Message) (c : ℚ) :
    (confidenceDistribution msgs).length = 5
    ∧ (confidenceDistribution msgs).sum = (confMessages msgs).length
    ∧ (confMessages msgs).length
        = (msgs.filter (fun m => !m.isUser && m.confidence.isSome)).length
    ∧ confBucket c < 5
    ∧ confBucket ((9 : ℚ)/10) = 0
    ∧ confBucket ((7 : ℚ)/10) = 1 :=
  ⟨rfl, bucketCounts_sum _, confMessages_length msgs, confBucket_lt_five c,
    by norm_num [confBucket], by norm_num [confBucket]⟩

/-! ## Allowed-document filtering (retriever plus client) -/

theorem filter_filter_and {α : Type} (p q : α → Bool) (l : List α) :
    (l.filter p).filter q = l.filter (fun a => p a && q a) := by
  induction l with
  | nil => rfl
  | cons x t ih =>
    cases hp : p x <;> cases hq : q x <;>
      simp [List.filter_cons, hp, hq, ih]

theorem filter_map_comm {α β : Type} (f : α → β) (p : β → Bool) (l : List α) :
    (l.map f).filter p = (l.filter (fun a => p (f a))).map f := by
  induction l with
  | nil => rfl
  | cons x t ih =>
    cases hx : p (f x) <;> simp [List.filter_cons, hx, ih]

/-- C7: with a non-empty allowed set, every retrieved result is owned by
an allowed document even when better-scoring chunks exist outside the set;
the retrieved list is exactly the top-k of the index restricted to the
allowed documents (not a global top-k filtered down to fewer than `k`);
and the client transmits exactly the user-selected document ids as
`document_ids` — both in the request body it builds and in the request the
chat context actually issues. -/
theorem allowed_documents_spec (sim : List ℚ → List ℚ → ℚ) (τ : ℚ)
    (idx : Index) (q : List ℚ) (k : Nat) (ds : List String) (query : String)
    (svc : ChatRequest → Except String ChatResponse) (uid aid now : String)
    (st : ChatState) (hne : ds ≠ []) :
    (∀ r ∈ (retrieve sim τ idx q k (some ds)).1, r.entry.docId ∈ ds)
    ∧ (retrieve sim τ idx q k (some ds)).1
        = ((sortDesc ((idx.entries.filter
              (fun e => ds.contains e.docId)).map (score sim q))).filter
            (fun r => decide (τ ≤ r.score))).take k
    ∧ (chatRequestBody query ds).document_ids = ds
    ∧ (jsTrim query ≠ "" → st.loading = false →
        (sendMessage svc uid aid now st query ds).requests
          = [chatRequestBody query ds]) := by
  have hEmpty : ds.isEmpty = false := by
    cases ds with
    | nil => exact absurd rfl hne
    | cons a t => rfl
  have hA : (fun r => allowedFilter (some ds) r && decide (τ ≤ r.score))
      = (fun r : RetrievalResult =>
          ds.contains r.entry.docId && decide (τ ≤ r.score)) := by
    funext r
    simp [allowedFilter, hEmpty]
  refine ⟨?_, ?_, rfl, ?_⟩
  · intro r hr
    have hfil : r ∈ (searchAll sim q idx).filter
        (fun r => allowedFilter (some ds) r && decide (τ ≤ r.score)) :=
      List.take_subset k _ hr
    have hpred := (List.mem_filter.mp hfil).2
    have hcont : ds.contains r.entry.docId = true := by
      have := Bool.and_elim_left hpred
      simpa [allowedFilter, hEmpty] using this
    simpa using hcont
  · show ((searchAll sim q idx).filter
        (fun r => allowedFilter (some ds) r && decide (τ ≤ r.score))).take k = _
    rw [hA, searchAll, ← filter_filter_and, filter_sortDesc, filter_map_comm]
    rfl
  · intro ht hl
    rw [sendMessage, if_neg (by simp [ht, hl])]
    cases hs : svc (chatRequestBody query ds) <;> simp [hs]

/-- Witness for C7 on a concrete two-document index where the best-scoring
chunk lies outside the allowed set. -/
theorem allowed_documents_spec_witness :
    (∀ r ∈ (retrieve (fun _ v => confidence v) 0
        ⟨[⟨"docB", 1, 0, [2], "beta"⟩, ⟨"docA", 1, 0, [1], "alpha"⟩]⟩
        [1] 5 (some ["docA"])).1, r.entry.docId ∈ ["docA"])
    ∧ (retrieve (fun _ v => confidence v) 0
        ⟨[⟨"docB", 1, 0, [2], "beta"⟩, ⟨"docA", 1, 0, [1], "alpha"⟩]⟩
        [1] 5 (some ["docA"])).1
        = ((sortDesc (((⟨[⟨"docB", 1, 0, [2], "beta"⟩,
              ⟨"docA", 1, 0, [1], "alpha"⟩]⟩ : Index).entries.filter
              (fun e => (["docA"]).contains e.docId)).map
              (score (fun _ v => confidence v) [1]))).filter
            (fun r => decide ((0 : ℚ) ≤ r.score))).take 5
    ∧ (chatRequestBody "what is alpha" ["docA"]).document_ids = ["docA"]
    ∧ (jsTrim "what is alpha" ≠ "" → (false = false) →
        (sendMessage (fun _ => .error "down") "u1" "a1" "t0"
            ⟨[], false, none⟩ "what is alpha" ["docA"]).requests
          = [chatRequestBody "what is alpha" ["docA"]]) := by
  have h := allowed_documents_spec (fun _ v => confidence v) 0
    ⟨[⟨"docB", 1, 0, [2], "beta"⟩, ⟨"docA", 1, 0, [1], "alpha"⟩]⟩
    [1] 5 ["docA"] "what is alpha" (fun _ => .error "down") "u1" "a1" "t0"
    ⟨[], false, none⟩ (by decide)
  exact ⟨h.1, h.2.1, h.2.2.1, fun ht _ => h.2.2.2 ht rfl⟩
